import Mathlib

/-!
Shallow embedding of the persistence / reconciliation core of the
Pick-Up-Form application (`src/mypoapp/app.py`), together with proofs of the
specified properties.

Modelling conventions:
* Python dicts are modelled as association lists `List (String × α)` with
  unique keys (JSON objects parsed by Python have unique keys); assignment
  `d[k] = v` is `dictSet` (replace in place, else append, matching CPython
  insertion-order semantics), and `k in d` / `d[k]` go through `List.lookup`.
* A company record `{"frequent_blades": [...]}` is represented by its
  `frequent_blades` value; a record missing the key behaves as `[]`, exactly
  as `data.get("frequent_blades", [])` does in the source.
* A remote company record is its optional `"descriptions"` value (`none`
  models a missing key, read through `.get("descriptions", [])`).
* `list(set(xs))` is modelled by the deterministic first-occurrence
  deduplication `pySet`; CPython leaves the order of a set unspecified and
  every property proved below about merge results is order-insensitive,
  while equalities between databases are stated via `pySet` itself.
* Network and file-system effects are explicit inputs: an HTTP response is a
  status code plus an optional parsed body (`none` models a JSON parse error
  or a raised exception), and "the file was written" is an `Option` result
  (`none` models "the handler returned without writing").
-/

namespace MyPOApp

/-- `frequent_blades` lists of the companies of one route:
`company name → blades`. -/
abbrev RouteCompanies := List (String × List String)

/-- The local company database: `route → company → frequent_blades`
(`self.company_database`). -/
abbrev CompanyDB := List (String × RouteCompanies)

/-- One route of the remote snapshot: `company → optional "descriptions"`
(`none` models a company object with no `"descriptions"` key). -/
abbrev ServerRoute := List (String × Option (List String))

/-- The remote snapshot `{route: {company: {"descriptions": [...]}}}`. -/
abbrev ServerDB := List (String × ServerRoute)

/-- Python dict assignment `d[k] = v`: replace the binding in place if the
key is present, otherwise append it at the end. -/
def dictSet {α : Type} : List (String × α) → String → α → List (String × α)
  | [], k, v => [(k, v)]
  | p :: tl, k, v => if p.1 = k then (k, v) :: tl else p :: dictSet tl k v

/-- The keys of a Python dict, in insertion order (`list(d.keys())`). -/
def keys {α : Type} (d : List (String × α)) : List String := d.map Prod.fst

/-- Worker for `pySet`: fold the input into an accumulator, keeping the
first occurrence of each element. -/
def pySetAux (acc : List String) : List String → List String
  | [] => acc
  | x :: xs => if x ∈ acc then pySetAux acc xs else pySetAux (acc ++ [x]) xs

/-- Deterministic model of Python `list(set(xs))`: the elements of `xs`
without duplicates (first occurrence kept; CPython fixes no order, and all
order-sensitive statements below go through `pySet` itself). -/
def pySet (xs : List String) : List String := pySetAux [] xs

/-- `app.py` 1297-1302: convert the downloaded snapshot to the local shape,
reading each company's blades via `data.get("descriptions", [])`. -/
def convert_server_db (server_db : ServerDB) : CompanyDB :=
  server_db.map (fun rp => (rp.1, rp.2.map (fun cp => (cp.1, cp.2.getD []))))

/-- `app.py` 1309-1317, inner loop of the merge branch: fold the companies
of one converted remote route into the local route record.  A company
present locally gets `list(set(existing + new))`; a company absent locally
is inserted as-is. -/
def merge_route (localRoute : RouteCompanies) (remoteRoute : RouteCompanies) :
    RouteCompanies :=
  remoteRoute.foldl
    (fun acc cp =>
      match List.lookup cp.1 acc with
      | some existing_blades => dictSet acc cp.1 (pySet (existing_blades ++ cp.2))
      | none => dictSet acc cp.1 cp.2)
    localRoute

/-- `app.py` 1305-1317, outer loop of the merge branch: a route absent
locally starts from `{}`, then its companies are merged in. -/
def merge_db (db : CompanyDB) (converted_db : CompanyDB) : CompanyDB :=
  converted_db.foldl
    (fun acc rp => dictSet acc rp.1 (merge_route ((List.lookup rp.1 acc).getD []) rp.2))
    db

/-- `app.py` 1289-1330 `sync_company_database`: on HTTP 200 with a parseable
body, replace or merge and report `true`; on any other status, or when
`response.json()` raises (`body = none`), leave the database untouched and
report `false`. -/
def sync_company_database (replace : Bool) (db : CompanyDB) (status_code : Nat)
    (body : Option ServerDB) : CompanyDB × Bool :=
  if status_code = 200 then
    match body with
    | some server_db =>
      let converted_db := convert_server_db server_db
      (if replace then converted_db else merge_db db converted_db, true)
    | none => (db, false)
  else (db, false)

/-- `db[route][company]`'s blades, when both keys are present. -/
def lookup2 (db : CompanyDB) (route company : String) : Option (List String) :=
  match List.lookup route db with
  | some companies => List.lookup company companies
  | none => none

/-! ### Association-list lemmas -/

theorem lookup_nil {α : Type} (k : String) :
    List.lookup k ([] : List (String × α)) = none := rfl

theorem lookup_cons {α : Type} (k : String) (kv : String × α) (tl : List (String × α)) :
    List.lookup k (kv :: tl) = if k = kv.1 then some kv.2 else List.lookup k tl := by
  obtain ⟨a, b⟩ := kv
  simp only [List.lookup]
  by_cases h : k = a
  · subst h
    simp
  · rw [beq_false_of_ne h]
    simp [h]

theorem lookup_dictSet_self {α : Type} (d : List (String × α)) (k : String) (v : α) :
    List.lookup k (dictSet d k v) = some v := by
  induction d with
  | nil => simp [dictSet, lookup_cons]
  | cons p tl ih =>
    by_cases h : p.1 = k
    · simp [dictSet, h, lookup_cons]
    · simp [dictSet, h, lookup_cons, Ne.symm h, ih]

theorem lookup_dictSet_ne {α : Type} (d : List (String × α)) (k k' : String) (v : α)
    (h : k' ≠ k) : List.lookup k' (dictSet d k v) = List.lookup k' d := by
  induction d with
  | nil => simp [dictSet, lookup_cons, lookup_nil, h]
  | cons p tl ih =>
    by_cases hp : p.1 = k
    · subst hp
      simp [dictSet, lookup_cons, h]
    · simp [dictSet, hp, lookup_cons, ih]

theorem dictSet_self {α : Type} (d : List (String × α)) (k : String) (v : α)
    (h : List.lookup k d = some v) : dictSet d k v = d := by
  induction d with
  | nil => simp [lookup_nil] at h
  | cons p tl ih =>
    rw [lookup_cons] at h
    by_cases hp : k = p.1
    · obtain ⟨k0, v0⟩ := p
      simp only at hp
      subst hp
      simp at h
      simp [dictSet, h]
    · simp [hp] at h
      have hne : ¬p.1 = k := fun he => hp he.symm
      simp only [dictSet]
      rw [if_neg hne, ih h]

theorem lookup_eq_none_iff {α : Type} (d : List (String × α)) (k : String) :
    List.lookup k d = none ↔ k ∉ keys d := by
  induction d with
  | nil => simp [lookup_nil, keys]
  | cons p tl ih =>
    by_cases hp : k = p.1
    · simp [lookup_cons, keys, hp]
    · simp [lookup_cons, keys, hp, ih]

theorem lookup_of_mem_nodup {α : Type} (d : List (String × α)) (k : String) (v : α)
    (hnd : (keys d).Nodup) (hm : (k, v) ∈ d) : List.lookup k d = some v := by
  induction d with
  | nil => simp at hm
  | cons p tl ih =>
    have hnd' : p.1 ∉ keys tl ∧ (keys tl).Nodup := by
      rw [keys, List.map_cons, List.nodup_cons] at hnd
      exact ⟨hnd.1, hnd.2⟩
    rcases List.mem_cons.mp hm with h | h
    · subst h
      simp [lookup_cons]
    · have hk : k ≠ p.1 := by
        intro he
        exact hnd'.1 (he ▸ List.mem_map.mpr ⟨(k, v), h, rfl⟩)
      rw [lookup_cons, if_neg hk]
      exact ih hnd'.2 h

/-! ### `pySet` lemmas -/

theorem mem_pySetAux (acc xs : List String) (y : String) :
    y ∈ pySetAux acc xs ↔ y ∈ acc ∨ y ∈ xs := by
  induction xs generalizing acc with
  | nil => simp [pySetAux]
  | cons x tl ih =>
    by_cases hx : x ∈ acc
    · rw [pySetAux, if_pos hx, ih]
      constructor
      · rintro (h | h)
        · exact Or.inl h
        · exact Or.inr (List.mem_cons_of_mem _ h)
      · rintro (h | h)
        · exact Or.inl h
        · rcases List.mem_cons.mp h with h | h
          · exact Or.inl (h ▸ hx)
          · exact Or.inr h
    · rw [pySetAux, if_neg hx, ih]
      simp [or_assoc, List.mem_append]

theorem nodup_pySetAux (acc xs : List String) (h : acc.Nodup) :
    (pySetAux acc xs).Nodup := by
  induction xs generalizing acc with
  | nil => exact h
  | cons x tl ih =>
    by_cases hx : x ∈ acc
    · rw [pySetAux, if_pos hx]
      exact ih acc h
    · rw [pySetAux, if_neg hx]
      refine ih (acc ++ [x]) ?_
      simp [List.nodup_append, h, hx]

theorem pySetAux_eq_of_subset (acc xs : List String) (h : ∀ y ∈ xs, y ∈ acc) :
    pySetAux acc xs = acc := by
  induction xs with
  | nil => rfl
  | cons x tl ih =>
    rw [pySetAux, if_pos (h x (List.mem_cons_self x tl))]
    exact ih fun y hy => h y (List.mem_cons_of_mem x hy)

theorem pySetAux_append (acc xs ys : List String) :
    pySetAux acc (xs ++ ys) = pySetAux (pySetAux acc xs) ys := by
  induction xs generalizing acc with
  | nil => simp [pySetAux]
  | cons x tl ih =>
    by_cases hx : x ∈ acc
    · rw [List.cons_append, pySetAux, if_pos hx, pySetAux, if_pos hx, ih]
    · rw [List.cons_append, pySetAux, if_neg hx, pySetAux, if_neg hx, ih]

theorem pySetAux_of_nodup (acc xs : List String) (h : (acc ++ xs).Nodup) :
    pySetAux acc xs = acc ++ xs := by
  induction xs generalizing acc with
  | nil => simp [pySetAux]
  | cons x tl ih =>
    have hx : x ∉ acc := by
      intro hmem
      rw [List.nodup_append] at h
      exact h.2.2 hmem (List.mem_cons_self x tl)
    rw [pySetAux, if_neg hx, ih (acc ++ [x]) (by simpa using h), List.append_assoc]
    simp

theorem mem_pySet (xs : List String) (y : String) : y ∈ pySet xs ↔ y ∈ xs := by
  rw [pySet, mem_pySetAux]
  simp

theorem nodup_pySet (xs : List String) : (pySet xs).Nodup :=
  nodup_pySetAux [] xs List.nodup_nil

theorem pySet_of_nodup (xs : List String) (h : xs.Nodup) : pySet xs = xs := by
  rw [pySet, pySetAux_of_nodup [] xs (by simpa using h), List.nil_append]

theorem pySet_append_of_subset (xs ys : List String) (hx : xs.Nodup)
    (hsub : ∀ y ∈ ys, y ∈ xs) : pySet (xs ++ ys) = xs := by
  rw [pySet, pySetAux_append, show pySetAux [] xs = pySet xs from rfl,
    pySet_of_nodup xs hx]
  exact pySetAux_eq_of_subset xs ys hsub

/-! ### Merge characterization -/

theorem lookup_merge_route (localRoute remoteRoute : RouteCompanies) (c : String)
    (hnd : (keys remoteRoute).Nodup) :
    List.lookup c (merge_route localRoute remoteRoute) =
      match List.lookup c remoteRoute with
      | none => List.lookup c localRoute
      | some ds =>
        match List.lookup c localRoute with
        | some ex => some (pySet (ex ++ ds))
        | none => some ds := by
  induction remoteRoute generalizing localRoute with
  | nil => simp [merge_route, lookup_nil]
  | cons cp tl ih =>
    have hnd' : cp.1 ∉ keys tl ∧ (keys tl).Nodup := by
      rw [keys, List.map_cons, List.nodup_cons] at hnd
      exact ⟨hnd.1, hnd.2⟩
    have hstep : merge_route localRoute (cp :: tl) =
        merge_route (match List.lookup cp.1 localRoute with
          | some existing_blades => dictSet localRoute cp.1 (pySet (existing_blades ++ cp.2))
          | none => dictSet localRoute cp.1 cp.2) tl := by
      rw [merge_route, List.foldl_cons]
      rfl
    rw [hstep, ih _ hnd'.2]
    by_cases hc : c = cp.1
    · have htl : List.lookup c tl = none := by
        rw [lookup_eq_none_iff, hc]
        exact hnd'.1
      rw [htl, lookup_cons, if_pos hc, ← hc]
      cases hl : List.lookup c localRoute with
      | none => simp [hl, lookup_dictSet_self]
      | some ex => simp [hl, lookup_dictSet_self]
    · have hlocal : List.lookup c (match List.lookup cp.1 localRoute with
          | some existing_blades => dictSet localRoute cp.1 (pySet (existing_blades ++ cp.2))
          | none => dictSet localRoute cp.1 cp.2) = List.lookup c localRoute := by
        cases List.lookup cp.1 localRoute with
        | none => exact lookup_dictSet_ne _ _ _ _ hc
        | some ex => exact lookup_dictSet_ne _ _ _ _ hc
      rw [hlocal, lookup_cons, if_neg hc]

theorem lookup_merge_db (db conv : CompanyDB) (r : String)
    (hnd : (keys conv).Nodup) :
    List.lookup r (merge_db db conv) =
      match List.lookup r conv with
      | none => List.lookup r db
      | some rr => some (merge_route ((List.lookup r db).getD []) rr) := by
  induction conv generalizing db with
  | nil => simp [merge_db, lookup_nil]
  | cons rp tl ih =>
    have hnd' : rp.1 ∉ keys tl ∧ (keys tl).Nodup := by
      rw [keys, List.map_cons, List.nodup_cons] at hnd
      exact ⟨hnd.1, hnd.2⟩
    have hstep : merge_db db (rp :: tl) =
        merge_db (dictSet db rp.1 (merge_route ((List.lookup rp.1 db).getD []) rp.2)) tl := by
      rw [merge_db, List.foldl_cons]
      rfl
    rw [hstep, ih _ hnd'.2]
    by_cases hr : r = rp.1
    · have htl : List.lookup r tl = none := by
        rw [lookup_eq_none_iff, hr]
        exact hnd'.1
      rw [htl, lookup_cons, if_pos hr, ← hr]
      simp [lookup_dictSet_self]
    · rw [lookup_dictSet_ne _ _ _ _ hr, lookup_cons, if_neg hr]

theorem lookup_map_snd {α β : Type} (f : α → β) (l : List (String × α)) (k : String) :
    List.lookup k (l.map fun p => (p.1, f p.2)) = (List.lookup k l).map f := by
  induction l with
  | nil => simp [lookup_nil]
  | cons p tl ih =>
    by_cases hp : k = p.1
    · simp [lookup_cons, hp]
    · simp [lookup_cons, hp, ih]

theorem keys_convert_server_db (server_db : ServerDB) :
    keys (convert_server_db server_db) = keys server_db := by
  rw [keys, keys, convert_server_db, List.map_map]
  rfl

theorem lookup_convert_server_db (server_db : ServerDB) (r : String) :
    List.lookup r (convert_server_db server_db) =
      (List.lookup r server_db).map fun sr => sr.map fun cp => (cp.1, cp.2.getD []) := by
  rw [convert_server_db]
  exact lookup_map_snd _ server_db r

/-! ### Claims about `sync_company_database` -/

/-- Claim C1: merge sync (`replace=false`) gives, for each route/company
present both locally and remotely, a `frequent_blades` list whose elements
are exactly the union of the local blades and the remote descriptions, with
no duplicates.  The witness below instantiates the spec's concrete example
(local `R1/A` blades `["x"]`, remote descriptions `["x","y"]`). -/
theorem merge_sync_blades_union
    (db : CompanyDB) (server_db : ServerDB) (route company : String)
    (localBlades : List String) (serverRoute : ServerRoute)
    (descriptions : Option (List String))
    (hroutes : (keys server_db).Nodup)
    (hr : List.lookup route server_db = some serverRoute)
    (hcomps : (keys serverRoute).Nodup)
    (hc : List.lookup company serverRoute = some descriptions)
    (hlocal : lookup2 db route company = some localBlades) :
    ∃ merged,
      lookup2 (sync_company_database false db 200 (some server_db)).1 route company =
        some merged ∧
      merged.Nodup ∧
      ∀ x, x ∈ merged ↔ x ∈ localBlades ∨ x ∈ descriptions.getD [] := by
  have hsync : (sync_company_database false db 200 (some server_db)).1 =
      merge_db db (convert_server_db server_db) := by
    simp [sync_company_database]
  set conv := convert_server_db server_db with hconv
  have hknd : (keys conv).Nodup := by
    rw [hconv, keys_convert_server_db]
    exact hroutes
  have hrconv : List.lookup route conv =
      some (serverRoute.map fun cp => (cp.1, cp.2.getD [])) := by
    rw [hconv, lookup_convert_server_db, hr, Option.map_some']
  have hdbr : ∃ companies, List.lookup route db = some companies ∧
      List.lookup company companies = some localBlades := by
    rw [lookup2] at hlocal
    cases hdb : List.lookup route db with
    | none => rw [hdb] at hlocal; exact absurd hlocal (by simp)
    | some companies => rw [hdb] at hlocal; exact ⟨companies, rfl, hlocal⟩
  obtain ⟨companies, hdb, hcompany⟩ := hdbr
  have hcknd : (keys (serverRoute.map fun cp => (cp.1, cp.2.getD []))).Nodup := by
    rw [keys, List.map_map]
    exact hcomps
  have hcconv : List.lookup company (serverRoute.map fun cp => (cp.1, cp.2.getD [])) =
      some (descriptions.getD []) := by
    rw [lookup_map_snd (fun x => x.getD []) serverRoute company, hc, Option.map_some']
  refine ⟨pySet (localBlades ++ descriptions.getD []), ?_, nodup_pySet _, ?_⟩
  · rw [hsync, lookup2, lookup_merge_db db conv route hknd, hrconv, hdb]
    show List.lookup company
        (merge_route companies (serverRoute.map fun cp => (cp.1, cp.2.getD []))) = _
    rw [lookup_merge_route _ _ _ hcknd, hcconv, hcompany]
  · intro x
    rw [mem_pySet, List.mem_append]

/-- Claim C1 witness: the spec's concrete example, merged through the
theorem above. -/
theorem merge_sync_blades_union_witness :
    ∃ merged,
      lookup2 (sync_company_database false [("R1", [("A", ["x"])])] 200
          (some [("R1", [("A", some ["x", "y"])])])).1 "R1" "A" = some merged ∧
      merged.Nodup ∧
      ∀ x, x ∈ merged ↔ x ∈ ["x"] ∨ x ∈ (some ["x", "y"] : Option (List String)).getD [] :=
  merge_sync_blades_union [("R1", [("A", ["x"])])] [("R1", [("A", some ["x", "y"])])]
    "R1" "A" ["x"] [("A", some ["x", "y"])] (some ["x", "y"])
    (by decide) (by decide) (by decide) (by decide) (by decide)

/-- Claim C2: sync with `replace=true` replaces the whole local database by
the converted remote snapshot, so a route present only locally is gone
afterwards. -/
theorem replace_sync_discards_local
    (db : CompanyDB) (server_db : ServerDB) (route : String)
    (habsent : List.lookup route server_db = none) :
    (sync_company_database true db 200 (some server_db)).1 =
        convert_server_db server_db ∧
      List.lookup route (sync_company_database true db 200 (some server_db)).1 = none := by
  constructor
  · simp [sync_company_database]
  · have h1 : (sync_company_database true db 200 (some server_db)).1 =
        convert_server_db server_db := by simp [sync_company_database]
    rw [h1, lookup_convert_server_db, habsent, Option.map_none']

/-- Claim C2 witness: a local database holding route `"R2"`, synced with
`replace=true` against a remote snapshot that lacks it. -/
theorem replace_sync_discards_local_witness :
    (sync_company_database true [("R2", [("B", ["z"])])] 200
        (some [("R1", [("A", some ["x"])])])).1 =
      convert_server_db [("R1", [("A", some ["x"])])] ∧
    List.lookup "R2" (sync_company_database true [("R2", [("B", ["z"])])] 200
        (some [("R1", [("A", some ["x"])])])).1 = none :=
  replace_sync_discards_local [("R2", [("B", ["z"])])] [("R1", [("A", some ["x"])])]
    "R2" (by decide)

theorem keys_map_snd {α β : Type} (f : α → β) (l : List (String × α)) :
    keys (l.map fun p => (p.1, f p.2)) = keys l := by
  rw [keys, keys, List.map_map]
  rfl

theorem merge_route_eq_self (rr conv : RouteCompanies)
    (h : ∀ cp ∈ conv, ∃ ex, List.lookup cp.1 rr = some ex ∧ pySet (ex ++ cp.2) = ex) :
    merge_route rr conv = rr := by
  induction conv with
  | nil => rfl
  | cons cp tl ih =>
    obtain ⟨ex, hex, hpy⟩ := h cp (List.mem_cons_self cp tl)
    have hstep : merge_route rr (cp :: tl) =
        merge_route (match List.lookup cp.1 rr with
          | some existing_blades => dictSet rr cp.1 (pySet (existing_blades ++ cp.2))
          | none => dictSet rr cp.1 cp.2) tl := by
      rw [merge_route, List.foldl_cons]
      rfl
    have hinit : (match List.lookup cp.1 rr with
        | some existing_blades => dictSet rr cp.1 (pySet (existing_blades ++ cp.2))
        | none => dictSet rr cp.1 cp.2) = rr := by
      simp only [hex]
      rw [hpy]
      exact dictSet_self rr cp.1 ex hex
    rw [hstep, hinit]
    exact ih fun cp' h' => h cp' (List.mem_cons_of_mem _ h')

theorem merge_db_eq_self (db conv : CompanyDB)
    (h : ∀ rp ∈ conv, ∃ rr, List.lookup rp.1 db = some rr ∧ merge_route rr rp.2 = rr) :
    merge_db db conv = db := by
  induction conv with
  | nil => rfl
  | cons rp tl ih =>
    obtain ⟨rr, hrr, hmr⟩ := h rp (List.mem_cons_self rp tl)
    have hstep : merge_db db (rp :: tl) =
        merge_db (dictSet db rp.1 (merge_route ((List.lookup rp.1 db).getD []) rp.2)) tl := by
      rw [merge_db, List.foldl_cons]
      rfl
    have hinit : dictSet db rp.1 (merge_route ((List.lookup rp.1 db).getD []) rp.2) = db := by
      rw [hrr, Option.getD_some, hmr]
      exact dictSet_self db rp.1 rr hrr
    rw [hstep, hinit]
    exact ih fun rp' h' => h rp' (List.mem_cons_of_mem _ h')

/-- Claim C3 counterexample: merge sync is NOT idempotent as claimed.  With
an empty local database and a remote snapshot whose `descriptions` list has
a duplicate (`["x", "x"]`), the first merge inserts the remote list verbatim
(`app.py` 1317 stores the converted record as-is for a company that is
absent locally), while the second merge runs it through `list(set(...))`
and drops the duplicate, so the two results differ. -/
theorem merge_sync_twice_ne_once :
    (sync_company_database false
        (sync_company_database false [] 200 (some [("R1", [("A", some ["x", "x"])])])).1
        200 (some [("R1", [("A", some ["x", "x"])])])).1 ≠
      (sync_company_database false [] 200 (some [("R1", [("A", some ["x", "x"])])])).1 := by
  decide

/-- Claim C3 (amended): merge sync applied twice with the same remote
snapshot yields the same CompanyDatabase as applying it once, provided every
remote `descriptions` list is itself duplicate-free (a company absent
locally is inserted with its remote list verbatim, so a remote duplicate
survives one merge and is dropped by the next; duplicate-free remote lists
are inserted already deduplicated and nothing changes on the second pass). -/
theorem merge_sync_idempotent_of_nodup_descriptions
    (db : CompanyDB) (server_db : ServerDB)
    (hroutes : (keys server_db).Nodup)
    (hcomps : ∀ sr ∈ server_db, (keys sr.2).Nodup)
    (hdesc : ∀ sr ∈ server_db, ∀ cp ∈ sr.2, (cp.2.getD ([] : List String)).Nodup) :
    (sync_company_database false
        (sync_company_database false db 200 (some server_db)).1
        200 (some server_db)).1 =
      (sync_company_database false db 200 (some server_db)).1 := by
  have hs : ∀ d : CompanyDB, (sync_company_database false d 200 (some server_db)).1 =
      merge_db d (convert_server_db server_db) := by
    intro d
    simp [sync_company_database]
  rw [hs, hs]
  set conv := convert_server_db server_db with hconv
  set once := merge_db db conv with honce
  apply merge_db_eq_self
  intro rp hrp
  obtain ⟨sr, hsr, hmap⟩ : ∃ sr ∈ server_db,
      (sr.1, sr.2.map fun cp => (cp.1, cp.2.getD [])) = rp := by
    rw [hconv, convert_server_db] at hrp
    obtain ⟨sr, hsr, heq⟩ := List.mem_map.mp hrp
    exact ⟨sr, hsr, heq⟩
  have hrp2 : rp.2 = sr.2.map fun cp => (cp.1, cp.2.getD []) :=
    (congrArg Prod.snd hmap).symm
  have hkconv : (keys conv).Nodup := by
    rw [hconv, keys_convert_server_db]
    exact hroutes
  have hlconv : List.lookup rp.1 conv = some rp.2 :=
    lookup_of_mem_nodup conv rp.1 rp.2 hkconv hrp
  have honce_l : List.lookup rp.1 once =
      some (merge_route ((List.lookup rp.1 db).getD []) rp.2) := by
    rw [honce, lookup_merge_db db conv rp.1 hkconv, hlconv]
  refine ⟨merge_route ((List.lookup rp.1 db).getD []) rp.2, honce_l, ?_⟩
  apply merge_route_eq_self
  intro cp hcp
  have hknd2 : (keys rp.2).Nodup := by
    rw [hrp2, keys_map_snd (fun x : Option (List String) => x.getD []) sr.2]
    exact hcomps sr hsr
  have hlcp : List.lookup cp.1 rp.2 = some cp.2 :=
    lookup_of_mem_nodup rp.2 cp.1 cp.2 hknd2 hcp
  have hdnd : cp.2.Nodup := by
    rw [hrp2] at hcp
    obtain ⟨cp0, hcp0, heq⟩ := List.mem_map.mp hcp
    rw [← heq]
    exact hdesc sr hsr cp0 hcp0
  have hl1 : List.lookup cp.1 (merge_route ((List.lookup rp.1 db).getD []) rp.2) =
      match List.lookup cp.1 ((List.lookup rp.1 db).getD ([] : RouteCompanies)) with
      | some ex => some (pySet (ex ++ cp.2))
      | none => some cp.2 := by
    rw [lookup_merge_route _ _ _ hknd2, hlcp]
  cases hex0 : List.lookup cp.1 ((List.lookup rp.1 db).getD ([] : RouteCompanies)) with
  | some ex0 =>
    refine ⟨pySet (ex0 ++ cp.2), by simp only [hl1, hex0], ?_⟩
    apply pySet_append_of_subset _ _ (nodup_pySet _)
    intro y hy
    rw [mem_pySet]
    exact List.mem_append.mpr (Or.inr hy)
  | none =>
    refine ⟨cp.2, by simp only [hl1, hex0], ?_⟩
    exact pySet_append_of_subset _ _ hdnd fun y hy => hy

/-- Claim C3 (amended) witness: a duplicate-free remote snapshot merged
twice into a concrete local database. -/
theorem merge_sync_idempotent_witness :
    (sync_company_database false
        (sync_company_database false [("R1", [("A", ["x"])])] 200
          (some [("R1", [("A", some ["x", "y"])]), ("R2", [("B", some ["z"])])])).1
        200 (some [("R1", [("A", some ["x", "y"])]), ("R2", [("B", some ["z"])])])).1 =
      (sync_company_database false [("R1", [("A", ["x"])])] 200
        (some [("R1", [("A", some ["x", "y"])]), ("R2", [("B", some ["z"])])])).1 :=
  merge_sync_idempotent_of_nodup_descriptions [("R1", [("A", ["x"])])]
    [("R1", [("A", some ["x", "y"])]), ("R2", [("B", some ["z"])])]
    (by decide) (by decide) (by decide)

/-! ### Route/company list refresh (`update_route_company_lists` and callers) -/

/-- The in-memory list state produced by `app.py` 1276-1287
`update_route_company_lists`, together with whether the cleared selection
was persisted via `save_settings()`. -/
structure ListsUpdate where
  available_routes : List String
  company_names : List String
  selected_company : String
  saved_settings : Bool
  deriving DecidableEq

/-- `app.py` 1279-1282: `company_names` is the key list of the selected
route's companies when a route is selected (non-empty string, Python
truthiness) and present in the database, else `[]`. -/
def company_names_of (db : CompanyDB) (selected_route : String) : List String :=
  if selected_route ≠ "" ∧ (List.lookup selected_route db).isSome then
    keys ((List.lookup selected_route db).getD [])
  else []

/-- `app.py` 1276-1287: recompute `available_routes` and `company_names`
from the database; a non-empty `selected_company` that is no longer among
`company_names` is cleared to `""` and the settings are saved. -/
def update_route_company_lists (db : CompanyDB) (selected_route selected_company : String) :
    ListsUpdate :=
  if selected_company ≠ "" ∧ selected_company ∉ company_names_of db selected_route then
    { available_routes := keys db, company_names := company_names_of db selected_route,
      selected_company := "", saved_settings := true }
  else
    { available_routes := keys db, company_names := company_names_of db selected_route,
      selected_company := selected_company, saved_settings := false }

/-- `app.py` 1247-1262 `load_company_database`: the parsed file (`none`
models a missing file or any load error, both of which reset the database
to `{}`), followed by the list refresh that every branch performs. -/
def load_company_database (file_content : Option CompanyDB)
    (selected_route selected_company : String) : CompanyDB × ListsUpdate :=
  match file_content with
  | some db => (db, update_route_company_lists db selected_route selected_company)
  | none => ([], update_route_company_lists [] selected_route selected_company)

/-- `app.py` 1264-1274 `save_company_database`: on a successful write the
lists are refreshed and `true` is returned; on an I/O error the refresh is
skipped (`none`) and `false` is returned. -/
def save_company_database (db : CompanyDB) (io_ok : Bool)
    (selected_route selected_company : String) : Option ListsUpdate × Bool :=
  if io_ok then (some (update_route_company_lists db selected_route selected_company), true)
  else (none, false)

/-- Claim C10: after a refresh of the route/company lists the in-memory
selection is consistent: `selected_company` is `""` or a key of the
selected route's companies; a dangling selection is cleared and the cleared
value persisted.  Loading (every branch), a successful save, and a
successful sync all route through this refresh. -/
theorem route_company_lists_invariant (db : CompanyDB) (r c : String) :
    ((update_route_company_lists db r c).selected_company = "" ∨
      ∃ rr, List.lookup r db = some rr ∧
        (update_route_company_lists db r c).selected_company ∈ keys rr) ∧
    (c ≠ "" → c ∉ (update_route_company_lists db r c).company_names →
      (update_route_company_lists db r c).selected_company = "" ∧
      (update_route_company_lists db r c).saved_settings = true) ∧
    (∀ file_content,
      (load_company_database file_content r c).2 =
        update_route_company_lists (load_company_database file_content r c).1 r c ∧
      ((load_company_database file_content r c).2.selected_company = "" ∨
        ∃ rr, List.lookup r (load_company_database file_content r c).1 = some rr ∧
          (load_company_database file_content r c).2.selected_company ∈ keys rr)) ∧
    (∀ io_ok, io_ok = true →
      (save_company_database db io_ok r c).1 = some (update_route_company_lists db r c)) ∧
    (∀ replace server_db,
      (update_route_company_lists
          (sync_company_database replace db 200 (some server_db)).1 r c).selected_company = "" ∨
        ∃ rr, List.lookup r (sync_company_database replace db 200 (some server_db)).1 = some rr ∧
          (update_route_company_lists
              (sync_company_database replace db 200 (some server_db)).1 r c).selected_company ∈
            keys rr) := by
  have main : ∀ d : CompanyDB,
      (update_route_company_lists d r c).selected_company = "" ∨
        ∃ rr, List.lookup r d = some rr ∧
          (update_route_company_lists d r c).selected_company ∈ keys rr := by
    intro d
    by_cases hclear : c ≠ "" ∧ c ∉ company_names_of d r
    · left
      simp [update_route_company_lists, hclear]
    · have hkeep : (update_route_company_lists d r c).selected_company = c := by
        simp [update_route_company_lists, hclear]
      rw [not_and_or] at hclear
      simp only [not_not] at hclear
      rcases hclear with hc | hc
      · left
        rw [hkeep]
        simpa using hc
      · by_cases hc0 : c = ""
        · left
          rw [hkeep, hc0]
        · right
          have hcond : r ≠ "" ∧ (List.lookup r d).isSome := by
            by_contra hn
            rw [company_names_of, if_neg hn] at hc
            simp at hc
          cases hlook : List.lookup r d with
          | none =>
            rw [hlook] at hcond
            simp at hcond
          | some rr =>
            refine ⟨rr, rfl, ?_⟩
            rw [hkeep]
            rw [company_names_of, if_pos hcond, hlook, Option.getD_some] at hc
            exact hc
  refine ⟨main db, ?_, ?_, ?_, ?_⟩
  · intro hc hnot
    have hnames : (update_route_company_lists db r c).company_names =
        company_names_of db r := by
      by_cases h2 : c ≠ "" ∧ c ∉ company_names_of db r <;>
        simp [update_route_company_lists, h2]
    rw [hnames] at hnot
    have hcond : c ≠ "" ∧ c ∉ company_names_of db r := ⟨hc, hnot⟩
    simp [update_route_company_lists, hcond]
  · intro file_content
    cases file_content with
    | some d => exact ⟨rfl, main d⟩
    | none => exact ⟨rfl, main []⟩
  · intro io_ok hok
    rw [hok, save_company_database]
    simp
  · intro replace server_db
    exact main _

/-- Claim C10 witness: a dangling selection (`"B"` under route `"R1"` whose
only company is `"A"`) is cleared and the clearing persisted. -/
theorem route_company_lists_invariant_witness :
    "B" ≠ "" ∧
    "B" ∉ (update_route_company_lists [("R1", [("A", ["x"])])] "R1" "B").company_names ∧
    (update_route_company_lists [("R1", [("A", ["x"])])] "R1" "B").selected_company = "" ∧
    (update_route_company_lists [("R1", [("A", ["x"])])] "R1" "B").saved_settings = true := by
  have h := (route_company_lists_invariant [("R1", [("A", ["x"])])] "R1" "B").2.1
    (by decide) (by decide)
  exact ⟨by decide, by decide, h.1, h.2⟩

/-! ### Delivery cache store (`download_delivery_route`, navigation) -/

/-- The JSON value of the response's `"data"` field: either an object
(mapped company name → its PO items, items abstracted to their display
strings, which `download_delivery_route` never inspects) or any non-object
JSON value, tagged with its Python type name. -/
inductive DataField
  | obj (entries : List (String × List String))
  | nonObj (type_name : String)
  deriving DecidableEq

/-- A parsed delivery API response: the truthiness of
`api_response.get("success")` (a missing field is falsy) and the optional
`"data"` field (`none` models a missing key). -/
structure ApiResponse where
  success : Bool
  data : Option DataField
  deriving DecidableEq

/-- The delivery-mode state touched by `download_delivery_route`
(`app.py` 430-520): the persisted `delivery_data.json` content (`none` =
never written), the in-memory response, and the browse cursor. -/
structure DeliveryState where
  delivery_data_file : Option ApiResponse
  delivery_api_response : Option ApiResponse
  delivery_companies : List String
  total_deliveries : Nat
  current_delivery_index : Int
  deriving DecidableEq

/-- The user-visible outcome of a download: each of the code's dialog
branches is a distinct constructor. -/
inductive DownloadReport
  | ok (total : Nat)
  | data_format_error (type_name : String)
  | no_data_field
  | api_error
  | server_status (code : Nat)
  | exception
  deriving DecidableEq

/-- `app.py` 444-518 `download_delivery_route` (download task): on status
200 with truthy `success` the full response is written to
`delivery_data.json` FIRST (lines 451-452), then the `"data"` field is
inspected; companies/total/cursor are set only when it is a dict.  A
non-200 status, an unparseable body (`body = none`), or falsy `success`
leaves the state untouched. -/
def download_delivery_route (st : DeliveryState) (status_code : Nat)
    (body : Option ApiResponse) : DeliveryState × DownloadReport :=
  if status_code = 200 then
    match body with
    | none => (st, .exception)
    | some api_response =>
      if api_response.success then
        let st1 := { st with delivery_data_file := some api_response,
                             delivery_api_response := some api_response }
        match api_response.data with
        | some (.obj entries) =>
          ({ st1 with delivery_companies := keys entries,
                      total_deliveries := (keys entries).length,
                      current_delivery_index := 0 }, .ok (keys entries).length)
        | some (.nonObj t) => (st1, .data_format_error t)
        | none => (st1, .no_data_field)
      else (st, .api_error)
  else (st, .server_status status_code)

/-- `app.py` 680-686 `previous_delivery`: no-op when there are no
deliveries, else move the cursor back one, wrapping via Python `%` (whose
result is non-negative for a positive modulus, as is Lean's `Int.emod`). -/
def previous_delivery (st : DeliveryState) : DeliveryState :=
  if st.total_deliveries = 0 then st
  else { st with current_delivery_index :=
    (st.current_delivery_index - 1) % (st.total_deliveries : Int) }

/-- `app.py` 688-694 `next_delivery`: the forward counterpart. -/
def next_delivery (st : DeliveryState) : DeliveryState :=
  if st.total_deliveries = 0 then st
  else { st with current_delivery_index :=
    (st.current_delivery_index + 1) % (st.total_deliveries : Int) }

/-- Claim C6: with `n = total_deliveries > 0` the cursor moves to
`(i±1) mod n`, wrapping in both directions; with `n = 0` both calls are
no-ops.  The wrap is made explicit for an in-range cursor. -/
theorem delivery_navigation_cyclic (st : DeliveryState) :
    (st.total_deliveries = 0 → previous_delivery st = st ∧ next_delivery st = st) ∧
    (0 < st.total_deliveries →
      (previous_delivery st).current_delivery_index =
        (st.current_delivery_index - 1) % (st.total_deliveries : Int) ∧
      (next_delivery st).current_delivery_index =
        (st.current_delivery_index + 1) % (st.total_deliveries : Int)) ∧
    (0 < st.total_deliveries → 0 ≤ st.current_delivery_index →
      st.current_delivery_index < (st.total_deliveries : Int) →
      ((previous_delivery st).current_delivery_index =
        if st.current_delivery_index = 0 then (st.total_deliveries : Int) - 1
        else st.current_delivery_index - 1) ∧
      ((next_delivery st).current_delivery_index =
        if st.current_delivery_index + 1 = (st.total_deliveries : Int) then 0
        else st.current_delivery_index + 1)) := by
  refine ⟨?_, ?_, ?_⟩
  · intro h
    constructor <;> simp [previous_delivery, next_delivery, h]
  · intro h
    have h0 : st.total_deliveries ≠ 0 := by omega
    constructor <;> simp [previous_delivery, next_delivery, h0]
  · intro h hge hlt
    have h0 : st.total_deliveries ≠ 0 := by omega
    constructor
    · simp only [previous_delivery, if_neg h0]
      by_cases hi : st.current_delivery_index = 0
      · rw [if_pos hi]
        show (st.current_delivery_index - 1) % (st.total_deliveries : Int) = _
        rw [hi]
        have he : (0 - 1 : Int) =
            ((st.total_deliveries : Int) - 1) + (st.total_deliveries : Int) * (-1) := by
          ring
        rw [he, Int.add_mul_emod_self_left]
        exact Int.emod_eq_of_lt (by omega) (by omega)
      · rw [if_neg hi]
        show (st.current_delivery_index - 1) % (st.total_deliveries : Int) = _
        exact Int.emod_eq_of_lt (by omega) (by omega)
    · simp only [next_delivery, if_neg h0]
      by_cases hi : st.current_delivery_index + 1 = (st.total_deliveries : Int)
      · rw [if_pos hi]
        show (st.current_delivery_index + 1) % (st.total_deliveries : Int) = _
        rw [hi, Int.emod_self]
      · rw [if_neg hi]
        show (st.current_delivery_index + 1) % (st.total_deliveries : Int) = _
        exact Int.emod_eq_of_lt (by omega) (by omega)

/-- Claim C6 witness: with 3 deliveries, previous from index 0 lands on 2
and next from index 2 lands on 0. -/
theorem delivery_navigation_cyclic_witness :
    (previous_delivery ⟨none, none, ["a", "b", "c"], 3, 0⟩).current_delivery_index = 2 ∧
    (next_delivery ⟨none, none, ["a", "b", "c"], 3, 2⟩).current_delivery_index = 0 := by
  have h1 := (delivery_navigation_cyclic ⟨none, none, ["a", "b", "c"], 3, 0⟩).2.2
    (by decide) (by decide) (by decide)
  have h2 := (delivery_navigation_cyclic ⟨none, none, ["a", "b", "c"], 3, 2⟩).2.2
    (by decide) (by decide) (by decide)
  constructor
  · rw [h1.1]
    decide
  · rw [h2.2]
    decide

/-- Claim C5 counterexample: on status 200 with truthy `success` but a
non-mapping `data` field the code has ALREADY written the response to
`delivery_data.json` (`app.py` 451-452 precede the `isinstance(data, dict)`
check at 461), so "persists nothing" is false: starting from a state that
was never persisted, the file content becomes the full response. -/
theorem download_persists_nonmapping_data :
    (download_delivery_route ⟨none, none, [], 0, 0⟩ 200
        (some ⟨true, some (DataField.nonObj "list")⟩)).1.delivery_data_file =
      some ⟨true, some (DataField.nonObj "list")⟩ ∧
    (download_delivery_route ⟨none, none, [], 0, 0⟩ 200
        (some ⟨true, some (DataField.nonObj "list")⟩)).1.delivery_data_file ≠ none ∧
    (download_delivery_route ⟨none, none, [], 0, 0⟩ 200
        (some ⟨true, some (DataField.nonObj "list")⟩)).2 =
      DownloadReport.data_format_error "list" := by
  decide

/-- Claim C5 (amended): the delivery response is persisted verbatim exactly
when the status is 200 and `success` is truthy — including when `data` is
missing or not a mapping; `delivery_companies` / `total_deliveries` are
derived from the data keys and the cursor reset to 0 only when `data` is a
mapping; non-200 status, unparseable body, and falsy `success` leave the
state untouched; every failure mode is reported by a distinct report. -/
theorem download_delivery_route_spec (st : DeliveryState) (status_code : Nat)
    (body : Option ApiResponse) :
    (status_code ≠ 200 →
      download_delivery_route st status_code body =
        (st, DownloadReport.server_status status_code)) ∧
    (status_code = 200 → body = none →
      download_delivery_route st status_code body = (st, DownloadReport.exception)) ∧
    (∀ resp, status_code = 200 → body = some resp → resp.success = false →
      download_delivery_route st status_code body = (st, DownloadReport.api_error)) ∧
    (∀ resp, status_code = 200 → body = some resp → resp.success = true →
      (∀ entries, resp.data = some (DataField.obj entries) →
        download_delivery_route st status_code body =
          ({ st with delivery_data_file := some resp, delivery_api_response := some resp,
                     delivery_companies := keys entries,
                     total_deliveries := (keys entries).length,
                     current_delivery_index := 0 },
            DownloadReport.ok (keys entries).length)) ∧
      (∀ t, resp.data = some (DataField.nonObj t) →
        download_delivery_route st status_code body =
          ({ st with delivery_data_file := some resp,
                     delivery_api_response := some resp },
            DownloadReport.data_format_error t)) ∧
      (resp.data = none →
        download_delivery_route st status_code body =
          ({ st with delivery_data_file := some resp,
                     delivery_api_response := some resp },
            DownloadReport.no_data_field))) := by
  refine ⟨?_, ?_, ?_, ?_⟩
  · intro h
    simp [download_delivery_route, h]
  · intro h hb
    subst h
    simp [download_delivery_route, hb]
  · intro resp h hb hs
    subst h
    subst hb
    simp [download_delivery_route, hs]
  · intro resp h hb hs
    subst h
    subst hb
    refine ⟨?_, ?_, ?_⟩
    · intro entries hdata
      simp [download_delivery_route, hs, hdata]
    · intro t hdata
      simp [download_delivery_route, hs, hdata]
    · intro hdata
      simp [download_delivery_route, hs, hdata]

/-- Claim C5 (amended) witness: a successful download with a dict `data`
persists the response, derives the two company names and resets the
cursor. -/
theorem download_delivery_route_spec_witness :
    download_delivery_route ⟨none, none, ["old"], 1, 7⟩ 200
        (some ⟨true, some (DataField.obj [("A", ["i1"]), ("B", [])])⟩) =
      (⟨some ⟨true, some (DataField.obj [("A", ["i1"]), ("B", [])])⟩,
        some ⟨true, some (DataField.obj [("A", ["i1"]), ("B", [])])⟩,
        ["A", "B"], 2, 0⟩,
        DownloadReport.ok 2) := by
  have h := ((download_delivery_route_spec ⟨none, none, ["old"], 1, 7⟩ 200
      (some ⟨true, some (DataField.obj [("A", ["i1"]), ("B", [])])⟩)).2.2.2
    ⟨true, some (DataField.obj [("A", ["i1"]), ("B", [])])⟩ rfl rfl rfl).1
    [("A", ["i1"]), ("B", [])] rfl
  rw [h]
  rfl

/-! ### PO record store (`load_pos`, `upload_selected`, `delete_selected`,
`update_selected`) -/

/-- The dynamically-typed `uploaded` field of a stored PO: a JSON boolean,
one of the legacy `"yes"`/`"no"` strings (or any other string), or a
missing key. -/
inductive UploadedVal
  | b (value : Bool)
  | s (value : String)
  | absent
  deriving DecidableEq

/-- A stored purchase-order record (`po_data.json` entry).  `pickup_date`
and `driver_id` are `Option` because the upload path backfills them when
missing. -/
structure POEntry where
  uploaded : UploadedVal
  description : String
  company : String
  route : String
  quantity : String
  pickup_date : Option String
  driver_id : Option String
  created_at : String
  deriving DecidableEq

instance : Inhabited POEntry :=
  ⟨⟨UploadedVal.absent, "", "", "", "", none, none, ""⟩⟩

/-- `app.py` 2070-2078 (`load_pos` body): read and parse the PO file;
a missing file yields `[]`, and any read or parse error (`parsed = none`,
covering malformed JSON) is caught and also yields `[]`.  The Lean function
is total: no input raises. -/
def load_pos (file_exists : Bool) (parsed : Option (List POEntry)) : List POEntry :=
  if file_exists then
    match parsed with
    | some pos => pos
    | none => []
  else []

/-- `app.py` 2485-2496: the per-entry normalization applied to the COPY
that is sent to the server — backfill `pickup_date` with today's date and
`driver_id` with the configured id, and turn a `"yes"`/`"no"` string
`uploaded` into a boolean. -/
def normalize_po (today driver_id : String) (po : POEntry) : POEntry :=
  let po1 := if po.pickup_date = none then { po with pickup_date := some today } else po
  let po2 := if po1.driver_id = none then { po1 with driver_id := some driver_id } else po1
  match po2.uploaded with
  | UploadedVal.s v =>
    if v = "yes" then { po2 with uploaded := UploadedVal.b true }
    else if v = "no" then { po2 with uploaded := UploadedVal.b false }
    else po2
  | _ => po2

/-- `app.py` 2482-2496: the batch POSTed to the server — normalized copies
of the selected entries, silently skipping indices past the end of the
list (`if i < len(all_pos)`). -/
def to_upload (selected : List Nat) (all_pos : List POEntry) (today driver_id : String) :
    List POEntry :=
  (selected.filter fun i => decide (i < all_pos.length)).map
    fun i => normalize_po today driver_id (all_pos.getD i default)

/-- `all_pos[i]["uploaded"] = True` (`app.py` 2510). -/
def set_uploaded_true (po : POEntry) : POEntry := { po with uploaded := UploadedVal.b true }

/-- `app.py` 2508-2510: after a 200 response, flip `uploaded` to boolean
`True` for every selected in-range index. -/
def mark_uploaded (selected : List Nat) (all_pos : List POEntry) : List POEntry :=
  match selected with
  | [] => all_pos
  | i :: rest =>
    mark_uploaded rest
      (if i < all_pos.length then
        all_pos.set i (set_uploaded_true (all_pos.getD i default))
      else all_pos)

/-- The user-visible outcome of `upload_selected`: each dialog branch is a
distinct constructor. -/
inductive UploadReport
  | no_selection
  | load_error
  | ok (count : Nat)
  | server_error (code : Nat)
  | exception
  deriving DecidableEq

/-- `app.py` 2458-2532 `upload_selected`: no selection or a failed load
returns before any network call; a raised POST (`post_status = none`) or a
non-200 status writes nothing; a 200 status marks the selected in-range
entries uploaded and persists the whole list (first component = content
written to `po_data.json`, `none` = file untouched). -/
def upload_selected (selected : List Nat) (file : Option (List POEntry))
    (post_status : Option Nat) (today driver_id : String) :
    Option (List POEntry) × UploadReport :=
  if selected = [] then (none, UploadReport.no_selection)
  else
    match file with
    | none => (none, UploadReport.load_error)
    | some all_pos =>
      match post_status with
      | none => (none, UploadReport.exception)
      | some code =>
        if code = 200 then
          (some (mark_uploaded selected all_pos),
            UploadReport.ok (to_upload selected all_pos today driver_id).length)
        else (none, UploadReport.server_error code)

/-- One iteration of the delete loop (`app.py` 2559-2561):
`if i < len(pos): pos.pop(i)`. -/
def pop_in_range (pos : List POEntry) (i : Nat) : List POEntry :=
  if i < pos.length then pos.eraseIdx i else pos

/-- The delete loop over an already-ordered index list. -/
def pop_each : List Nat → List POEntry → List POEntry
  | [], pos => pos
  | i :: rest, pos => pop_each rest (pop_in_range pos i)

/-- `app.py` 2558-2561: delete the selected indices in reverse-sorted
order (`sorted(selected, reverse=True)`). -/
def delete_apply (selected : List Nat) (pos : List POEntry) : List POEntry :=
  pop_each (List.insertionSort (fun a b => a ≥ b) selected) pos

/-- The user-visible outcome of `delete_selected`. -/
inductive DeleteReport
  | no_selection
  | load_error
  | ok (count : Nat)
  deriving DecidableEq

/-- `app.py` 2534-2576 `delete_selected` (write modeled as succeeding; the
first component is the content written, `none` = file untouched). -/
def delete_selected (selected : List Nat) (file : Option (List POEntry)) :
    Option (List POEntry) × DeleteReport :=
  if selected = [] then (none, DeleteReport.no_selection)
  else
    match file with
    | none => (none, DeleteReport.load_error)
    | some pos => (some (delete_apply selected pos), DeleteReport.ok selected.length)

/-- The user-visible outcome of `update_selected`. -/
inductive UpdateReport
  | invalid_selection
  | load_error
  | invalid_index
  | ok
  deriving DecidableEq

/-- `app.py` 2578-2611 `update_selected`: exactly one selection required;
`selected[0] >= len(pos)` is rejected with an error dialog; otherwise the
entry is loaded into the form and `editing_index` set (first component). -/
def update_selected (selected : List Nat) (file : Option (List POEntry)) :
    Option Nat × UpdateReport :=
  if selected.length ≠ 1 then (none, UpdateReport.invalid_selection)
  else
    match file with
    | none => (none, UpdateReport.load_error)
    | some pos =>
      if pos.length ≤ selected.headD 0 then (none, UpdateReport.invalid_index)
      else (some (selected.headD 0), UpdateReport.ok)

/-- Claim C8: loading the PO list is total and yields `[]` on a missing
file and on any parse or I/O error (including invalid JSON, modeled by
`parsed = none`); a successfully parsed list is returned as-is. -/
theorem load_pos_never_raises :
    (∀ parsed, load_pos false parsed = []) ∧
    load_pos true none = [] ∧
    ∀ pos, load_pos true (some pos) = pos :=
  ⟨fun _ => rfl, rfl, fun _ => rfl⟩

theorem set_uploaded_true_idem (po : POEntry) :
    set_uploaded_true (set_uploaded_true po) = set_uploaded_true po := rfl

theorem length_mark_uploaded (selected : List Nat) (all_pos : List POEntry) :
    (mark_uploaded selected all_pos).length = all_pos.length := by
  induction selected generalizing all_pos with
  | nil => rfl
  | cons i rest ih =>
    rw [mark_uploaded, ih]
    by_cases hi : i < all_pos.length
    · rw [if_pos hi, List.length_set]
    · rw [if_neg hi]

theorem get?_mark_step_ne (all_pos : List POEntry) (i j : Nat) (hij : i ≠ j) :
    (if i < all_pos.length then
        all_pos.set i (set_uploaded_true (all_pos.getD i default))
      else all_pos).get? j = all_pos.get? j := by
  by_cases hi : i < all_pos.length
  · rw [if_pos hi]
    exact List.get?_set_ne _ _ hij
  · rw [if_neg hi]

theorem get?_mark_step_self (all_pos : List POEntry) (i : Nat) (hi : i < all_pos.length) :
    (if i < all_pos.length then
        all_pos.set i (set_uploaded_true (all_pos.getD i default))
      else all_pos).get? i = (all_pos.get? i).map set_uploaded_true := by
  rw [if_pos hi, List.get?_set_eq_of_lt _ hi]
  cases hgp : all_pos.get? i with
  | none =>
    have := List.get?_eq_none.mp hgp
    omega
  | some p =>
    rw [List.getD_eq_get?, hgp]
    rfl

theorem get?_mark_uploaded (selected : List Nat) (all_pos : List POEntry) (j : Nat) :
    (mark_uploaded selected all_pos).get? j =
      if j ∈ selected then (all_pos.get? j).map set_uploaded_true
      else all_pos.get? j := by
  induction selected generalizing all_pos with
  | nil => simp [mark_uploaded]
  | cons i rest ih =>
    rw [mark_uploaded, ih]
    by_cases hij : j = i
    · subst hij
      rw [if_pos (List.mem_cons_self j rest)]
      by_cases hjr : j ∈ rest
      · rw [if_pos hjr]
        by_cases hi : j < all_pos.length
        · rw [get?_mark_step_self all_pos j hi, Option.map_map]
          cases all_pos.get? j with
          | none => rfl
          | some p =>
            show some (set_uploaded_true (set_uploaded_true p)) = some (set_uploaded_true p)
            rw [set_uploaded_true_idem]
        · rw [if_neg hi]
      · rw [if_neg hjr]
        by_cases hi : j < all_pos.length
        · exact get?_mark_step_self all_pos j hi
        · rw [if_neg hi]
          have hnone : all_pos.get? j = none := List.get?_eq_none.mpr (by omega)
          rw [hnone]
          rfl
    · have hstep := get?_mark_step_ne all_pos i j fun h => hij h.symm
      by_cases hjr : j ∈ rest
      · rw [if_pos hjr, if_pos (List.mem_cons_of_mem i hjr), hstep]
      · rw [if_neg hjr, hstep, if_neg (show j ∉ i :: rest by simp [hij, hjr])]

/-- Claim C4: with a non-empty selection and a loaded PO list, an upload
whose POST returns non-200 or raises leaves the file unwritten; a 200
response persists exactly the list in which every selected in-range entry
has `uploaded` set to boolean `true` and all other entries are unchanged
(length preserved). -/
theorem upload_selected_failure_leaves_data (selected : List Nat)
    (all_pos : List POEntry) (post_status : Option Nat) (today driver_id : String)
    (hsel : selected ≠ []) :
    (∀ code, post_status = some code → code ≠ 200 →
      (upload_selected selected (some all_pos) post_status today driver_id).1 = none) ∧
    (post_status = none →
      (upload_selected selected (some all_pos) post_status today driver_id).1 = none) ∧
    (post_status = some 200 →
      (upload_selected selected (some all_pos) post_status today driver_id).1 =
        some (mark_uploaded selected all_pos) ∧
      (mark_uploaded selected all_pos).length = all_pos.length ∧
      ∀ j, (mark_uploaded selected all_pos).get? j =
        if j ∈ selected then (all_pos.get? j).map set_uploaded_true
        else all_pos.get? j) := by
  refine ⟨?_, ?_, ?_⟩
  · intro code hc hne
    subst hc
    simp [upload_selected, hsel, hne]
  · intro hc
    subst hc
    simp [upload_selected, hsel]
  · intro hc
    subst hc
    refine ⟨by simp [upload_selected, hsel], length_mark_uploaded selected all_pos, ?_⟩
    intro j
    exact get?_mark_uploaded selected all_pos j

/-- Claim C4 witness: a two-entry list with entry 0 selected — a 500
response writes nothing, an exception writes nothing, and a 200 response
persists the list with exactly entry 0 marked uploaded. -/
theorem upload_selected_failure_leaves_data_witness :
    ([0] ≠ ([] : List Nat)) ∧
    (upload_selected [0]
        (some [⟨UploadedVal.s "no", "d0", "A", "R1", "1", none, none, "t0"⟩,
          ⟨UploadedVal.b false, "d1", "B", "R1", "2", some "01/02/2026", some "7", "t1"⟩])
        (some 500) "01/03/2026" "7").1 = none ∧
    (upload_selected [0]
        (some [⟨UploadedVal.s "no", "d0", "A", "R1", "1", none, none, "t0"⟩,
          ⟨UploadedVal.b false, "d1", "B", "R1", "2", some "01/02/2026", some "7", "t1"⟩])
        none "01/03/2026" "7").1 = none ∧
    (upload_selected [0]
        (some [⟨UploadedVal.s "no", "d0", "A", "R1", "1", none, none, "t0"⟩,
          ⟨UploadedVal.b false, "d1", "B", "R1", "2", some "01/02/2026", some "7", "t1"⟩])
        (some 200) "01/03/2026" "7").1 =
      some (mark_uploaded [0]
        [⟨UploadedVal.s "no", "d0", "A", "R1", "1", none, none, "t0"⟩,
          ⟨UploadedVal.b false, "d1", "B", "R1", "2", some "01/02/2026", some "7", "t1"⟩]) := by
  refine ⟨by decide, ?_, ?_, ?_⟩
  · exact (upload_selected_failure_leaves_data [0] _ (some 500) "01/03/2026" "7"
      (by decide)).1 500 rfl (by decide)
  · exact (upload_selected_failure_leaves_data [0] _ none "01/03/2026" "7"
      (by decide)).2.1 rfl
  · exact ((upload_selected_failure_leaves_data [0] _ (some 200) "01/03/2026" "7"
      (by decide)).2.2 rfl).1

/-! ### Index-bounds safety of the PO operations -/

instance : IsAntisymm Nat (fun a b => a ≥ b) :=
  ⟨fun _ _ h1 h2 => Nat.le_antisymm h2 h1⟩

theorem pop_each_filter (ds : List Nat) (ps : List POEntry)
    (hd : ds.Pairwise (· > ·)) :
    pop_each ds ps = pop_each (ds.filter fun i => decide (i < ps.length)) ps := by
  induction ds generalizing ps with
  | nil => rfl
  | cons i rest ih =>
    have hd' : rest.Pairwise (· > ·) := (List.pairwise_cons.mp hd).2
    have hgt : ∀ j ∈ rest, i > j := (List.pairwise_cons.mp hd).1
    by_cases hi : i < ps.length
    · rw [List.filter_cons_of_pos (by simpa using hi)]
      rw [pop_each, pop_each, pop_in_range, if_pos hi]
      rw [ih (ps.eraseIdx i) hd']
      have hlen : (ps.eraseIdx i).length = ps.length - 1 :=
        List.length_eraseIdx_of_lt hi
      have hcong : (rest.filter fun j => decide (j < (ps.eraseIdx i).length)) =
          rest.filter fun j => decide (j < ps.length) := by
        apply List.filter_congr
        intro j hj
        have h1 : i > j := hgt j hj
        rw [decide_eq_decide, hlen]
        omega
      rw [hcong]
    · rw [List.filter_cons_of_neg (by simpa using hi)]
      rw [pop_each, pop_in_range, if_neg hi]
      exact ih ps hd'

theorem pop_each_sublist (ds : List Nat) (ps : List POEntry) :
    (pop_each ds ps).Sublist ps := by
  induction ds generalizing ps with
  | nil => exact List.Sublist.refl ps
  | cons i rest ih =>
    rw [pop_each]
    refine (ih (pop_in_range ps i)).trans ?_
    rw [pop_in_range]
    by_cases hi : i < ps.length
    · rw [if_pos hi]
      exact List.eraseIdx_sublist ps i
    · rw [if_neg hi]

theorem sortDesc_pairwise_gt (selected : List Nat) (hnd : selected.Nodup) :
    (List.insertionSort (fun a b => a ≥ b) selected).Pairwise (· > ·) := by
  have hsorted : (List.insertionSort (fun a b => a ≥ b) selected).Pairwise
      (fun a b => a ≥ b) :=
    List.sorted_insertionSort (fun a b => a ≥ b) selected
  have hnd' : (List.insertionSort (fun a b => a ≥ b) selected).Nodup :=
    (List.perm_insertionSort (fun a b => a ≥ b) selected).nodup_iff.mpr hnd
  exact (hsorted.and hnd').imp fun h => lt_of_le_of_ne h.1 (Ne.symm h.2)

theorem sortDesc_filter_comm (selected : List Nat) (p : Nat → Bool) :
    List.insertionSort (fun a b => a ≥ b) (selected.filter p) =
      (List.insertionSort (fun a b => a ≥ b) selected).filter p := by
  apply List.eq_of_perm_of_sorted
    (r := fun a b => a ≥ b)
  · exact (List.perm_insertionSort _ _).trans
      ((List.perm_insertionSort (fun a b => a ≥ b) selected).filter p).symm
  · exact List.sorted_insertionSort _ _
  · exact (List.sorted_insertionSort (fun a b => a ≥ b) selected).sublist
      (List.filter_sublist _)

theorem mark_uploaded_filter (selected : List Nat) (all_pos : List POEntry) :
    mark_uploaded selected all_pos =
      mark_uploaded (selected.filter fun i => decide (i < all_pos.length)) all_pos := by
  induction selected generalizing all_pos with
  | nil => rfl
  | cons i rest ih =>
    by_cases hi : i < all_pos.length
    · rw [List.filter_cons_of_pos (by simpa using hi)]
      rw [mark_uploaded, mark_uploaded, if_pos hi]
      have hacc := ih (all_pos.set i (set_uploaded_true (all_pos.getD i default)))
      rw [List.length_set] at hacc
      exact hacc
    · rw [List.filter_cons_of_neg (by simpa using hi)]
      rw [mark_uploaded, if_neg hi]
      exact ih all_pos

/-- Claim C9: the three index-driven operations never touch a position
`≥ n`: the uploaded batch and the marking ignore out-of-range selected
indices, deletion ignores them too (and only ever removes existing entries:
the result is a sublist), and update rejects an out-of-range sole
selection with an error. -/
theorem selected_indices_bounds_safe (selected : List Nat)
    (all_pos pos : List POEntry) (today driver_id : String)
    (hnd : selected.Nodup) :
    to_upload selected all_pos today driver_id =
      to_upload (selected.filter fun i => decide (i < all_pos.length))
        all_pos today driver_id ∧
    mark_uploaded selected all_pos =
      mark_uploaded (selected.filter fun i => decide (i < all_pos.length)) all_pos ∧
    delete_apply selected pos =
      delete_apply (selected.filter fun i => decide (i < pos.length)) pos ∧
    (delete_apply selected pos).Sublist pos ∧
    ∀ i, pos.length ≤ i →
      update_selected [i] (some pos) = (none, UpdateReport.invalid_index) := by
  refine ⟨?_, mark_uploaded_filter selected all_pos, ?_, pop_each_sublist _ pos, ?_⟩
  · rw [to_upload, to_upload, List.filter_filter]
    simp
  · rw [delete_apply, delete_apply, sortDesc_filter_comm]
    exact pop_each_filter _ pos (sortDesc_pairwise_gt selected hnd)
  · intro i h
    simp [update_selected, h]

/-- Claim C9 witness: with a 2-entry list, selection `[5, 0]` (index 5 out
of range) deletes only existing entries, and a sole selection `[7]` is
rejected by update. -/
theorem selected_indices_bounds_safe_witness :
    ([5, 0] : List Nat).Nodup ∧
    (delete_apply [5, 0] [default, default]).Sublist [default, default] ∧
    update_selected [7] (some [default, default]) =
      (none, UpdateReport.invalid_index) :=
  ⟨by decide,
    (selected_indices_bounds_safe [5, 0] [default, default] [default, default]
      "" "" (by decide)).2.2.2.1,
    (selected_indices_bounds_safe [5, 0] [default, default] [default, default]
      "" "" (by decide)).2.2.2.2 7 (by decide)⟩

/-! ### The add-PO gate (`show_add_po`) -/

/-- The named screens of the application. -/
inductive Screen
  | pickup_home
  | delivery_home
  | route_selection
  | company_selection
  | company_management
  | settings
  | add_po
  | add_company
  deriving DecidableEq

/-- `app.py` 1844-1849 `update_frequent_blades_list`: the blade list of the
selected route/company, `[]` when either is missing. -/
def update_frequent_blades_list (db : CompanyDB)
    (selected_route selected_company : String) : List String :=
  match List.lookup selected_route db with
  | some companies =>
    match List.lookup selected_company companies with
    | some blades => blades
    | none => []
  | none => []

/-- `app.py` 2388-2410 `show_add_po`: the ONLY gate is
`if not self.selected_company` (Python truthiness of the string), which
redirects to the company-selection screen; otherwise the add-PO screen is
shown.  The company's blade list is never consulted. -/
def show_add_po (selected_company : String) : Screen :=
  if selected_company = "" then Screen.company_selection else Screen.add_po

/-- Claim C7 counterexample: a selected company (`"A"` under `"R1"`) whose
`frequent_blades` set is empty still opens the add-PO form — `show_add_po`
neither consults the blade list nor redirects to company management (its
only redirect, on an empty selection, targets company selection). -/
theorem show_add_po_no_blade_gate :
    update_frequent_blades_list [("R1", [("A", [])])] "R1" "A" = [] ∧
    show_add_po "A" = Screen.add_po ∧
    show_add_po "A" ≠ Screen.company_management := by
  decide

/-- Claim C7 (amended): opening the add-PO form is gated only on a company
being selected: an empty `selected_company` redirects to the
company-selection screen; any non-empty selection opens the add-PO form,
even when the company's `frequent_blades` list is empty — there is no
redirect to company management. -/
theorem show_add_po_gate (db : CompanyDB) (selected_route selected_company : String)
    (hempty : update_frequent_blades_list db selected_route selected_company = []) :
    (selected_company = "" → show_add_po selected_company = Screen.company_selection) ∧
    (selected_company ≠ "" →
      show_add_po selected_company = Screen.add_po ∧
      show_add_po selected_company ≠ Screen.company_management) := by
  constructor
  · intro h
    simp [show_add_po, h]
  · intro h
    refine ⟨by simp [show_add_po, h], ?_⟩
    simp [show_add_po, h]

/-- Claim C7 (amended) witness: the blade-less company `"A"` opens the
add-PO form. -/
theorem show_add_po_gate_witness :
    show_add_po "A" = Screen.add_po ∧
    show_add_po "A" ≠ Screen.company_management :=
  (show_add_po_gate [("R1", [("A", [])])] "R1" "A" (by decide)).2 (by decide)

end MyPOApp
